import Mathlib

/-!
Verification of the schema-to-chain compiler in `src/middlewares/schema.ts`
(`checkSchema`, `ensureLocations`, `isValidatorOptions`).

The TypeScript code is shallowly embedded:
* JavaScript runtime values are `JSVal`; objects are association lists of
  (key, value) pairs in key iteration order (a well-formed JS object has no
  duplicate keys, so iterating `Object.keys(config)` and reading
  `config[method]` corresponds to iterating the pairs).
* The fluent validation chain (an external collaborator, `check(...)` from
  `./check`) is modelled as a trace: a `Chain` carries the constructor
  arguments plus the ordered list of method invocations (`ChainOp`) queued
  on it.  `chain.if`, `chain.not`, `chain.withMessage`, `chain.bail` and the
  dynamically dispatched rule methods each append one `ChainOp`.
* `typeof chain[method] === 'function'` is modelled by membership in a
  parameter `chainMethods`, and `method in ValidatorsImpl.prototype` by
  membership in a parameter `validatorMethods` — both are facts about the
  collaborating chain implementation, not about this module.
* `console.warn` is modelled by accumulating the warning strings.
-/

set_option autoImplicit false

namespace ExpressValidator

/-- A JavaScript runtime value, as far as `schema.ts` inspects values:
truthiness, strict equality with `true`, `Array.isArray`, property access and
string comparison.  Functions (used for `if` predicates and dynamic message
creators) are opaque and tagged by an identifier. -/
inductive JSVal where
  | undefined
  | vnull
  | vbool (b : Bool)
  | vnum (n : Int)
  | vstr (s : String)
  | varr (elems : List JSVal)
  | vfn (id : Nat)
  | vobj (fields : List (String × JSVal))

/-- Strict equality with the literal `true` (`v === true`). -/
def isTrueLit : JSVal → Bool
  | .vbool true => true
  | _ => false

/-- A JavaScript object: its own enumerable (key, value) pairs in key
iteration order. -/
abbrev JSObject := List (String × JSVal)

/-- JavaScript truthiness (`Boolean(v)`, or `v` used in a condition). -/
def truthy : JSVal → Bool
  | .undefined => false
  | .vnull => false
  | .vbool b => b
  | .vnum n => n != 0
  | .vstr s => s != ""
  | .varr _ => true
  | .vfn _ => true
  | .vobj _ => true

/-- Whether a value is nullish (`undefined` or `null`), as tested by `??`. -/
def nullish : JSVal → Bool
  | .undefined => true
  | .vnull => true
  | _ => false

/-- Property read `o[k]` on an object: the value of the first pair with the
given key, `undefined` when the key is absent. -/
def getProp (o : JSObject) (k : String) : JSVal :=
  match o.find? (fun p => p.1 == k) with
  | some p => p.2
  | none => .undefined

/-- Property read `v[k]` on an arbitrary value: objects look up the key, any
other value yields `undefined` (none of the keys read by `schema.ts` exist on
primitives, arrays or functions). -/
def jsGet : JSVal → String → JSVal
  | .vobj fields, k => getProp fields k
  | _, _ => .undefined

/-! ### Locations (`ensureLocations`) -/

/-- `const validLocations: Location[] = ['body', 'cookies', 'headers', 'params', 'query'];` -/
def validLocations : List String := ["body", "cookies", "headers", "params", "query"]

/-- `const protectedNames = ['errorMessage', 'in'];` -/
def protectedNames : List String := ["errorMessage", "in"]

/-- The normalization of `config.in` performed at the top of `ensureLocations`:
`Array.isArray(config.in) ? config.in : [config.in].filter(Boolean)`. -/
def normalizedIn (config : JSObject) : List JSVal :=
  match getProp config "in" with
  | .varr xs => xs
  | v => if truthy v then [v] else []

/-- The final `.filter(location => validLocations.includes(location))` step,
keeping only values that are one of the five valid location strings.  The
survivors are necessarily strings, so the result is typed `List String`. -/
def keepValid : JSVal → Option String
  | .vstr s => if validLocations.contains s then some s else none
  | _ => none

/-- `function ensureLocations(config, defaults)` of `schema.ts`. -/
def ensureLocations (config : JSObject) (defaults : List String) : List String :=
  let locations := normalizedIn config
  let actualLocations := if locations.length != 0 then locations else defaults.map .vstr
  actualLocations.filterMap keepValid

/-! ### The validation chain collaborator, as a trace -/

/-- One queued invocation on a validation chain: the modifier methods
`if`, `not`, `withMessage`, `bail`, and the dynamically dispatched
validator/sanitizer methods (`chain[method](...options)`). -/
inductive ChainOp where
  | ifOp (cond : JSVal)
  | notOp
  | callOp (method : String) (args : List JSVal)
  | withMessageOp (msg : JSVal)
  | bailOp

/-- A validation chain: the arguments it was constructed with by
`check(field, locations, message)` plus the trace of queued invocations. -/
structure Chain where
  fieldName : String
  locations : List String
  message : JSVal
  ops : List ChainOp

/-- `check(fields, locations, message)`: a fresh chain with no queued
invocations. -/
def check (fieldName : String) (locations : List String) (message : JSVal) : Chain :=
  { fieldName := fieldName, locations := locations, message := message, ops := [] }

/-- Queue one invocation on a chain (every chain method is declarative: it
registers a step and returns the chain). -/
def Chain.push (c : Chain) (op : ChainOp) : Chain :=
  { c with ops := c.ops ++ [op] }

/-! ### The schema compiler (`checkSchema`) -/

/-- `function isValidatorOptions(method, methodCfg)`:
`methodCfg !== true && method in ValidatorsImpl.prototype`.  The member set
of `ValidatorsImpl.prototype` is the parameter `validatorMethods`. -/
def isValidatorOptions (validatorMethods : List String) (method : String) (methodCfg : JSVal) : Bool :=
  !isTrueLit methodCfg && validatorMethods.contains method

/-- The argument resolution of the dispatcher:
`let options = methodCfg === true ? [] : methodCfg.options ?? [];`
`if (options != null && !Array.isArray(options)) { options = [options]; }`
(after `?? []` the value can no longer be nullish, so the `options != null`
guard is vacuous), followed by spreading `...options`. -/
def resolveArgs (methodCfg : JSVal) : List JSVal :=
  let options : JSVal :=
    if isTrueLit methodCfg then .varr []
    else if nullish (jsGet methodCfg "options") then .varr []
    else jsGet methodCfg "options"
  match options with
  | .varr xs => xs
  | v => [v]

/-- The `console.warn` text for an unknown validator/sanitizer name. -/
def warnMessage (method : String) : String :=
  "express-validator: a validator/sanitizer with name " ++ method ++ " does not exist"

/-- The compiler state for one field: the chain under construction and the
warnings printed so far. -/
structure CompileState where
  chain : Chain
  warnings : List String

/-- The body of the dispatcher's `forEach`: warn and skip when
`typeof chain[method] !== 'function'` (membership in `chainMethods`);
otherwise resolve the arguments and queue `if` / `not` / the method itself /
`withMessage` / `bail` in the source's order, the modifiers guarded by
`isValidatorOptions` and the truthiness of the configured value. -/
def applyMethod (chainMethods validatorMethods : List String) (st : CompileState)
    (method : String) (methodCfg : JSVal) : CompileState :=
  if !chainMethods.contains method then
    { chain := st.chain, warnings := st.warnings ++ [warnMessage method] }
  else
    let args := resolveArgs methodCfg
    let c1 :=
      if isValidatorOptions validatorMethods method methodCfg && truthy (jsGet methodCfg "if") then
        st.chain.push (.ifOp (jsGet methodCfg "if"))
      else st.chain
    let c2 :=
      if isValidatorOptions validatorMethods method methodCfg && truthy (jsGet methodCfg "negated") then
        c1.push .notOp
      else c1
    let c3 := c2.push (.callOp method args)
    let c4 :=
      if isValidatorOptions validatorMethods method methodCfg && truthy (jsGet methodCfg "errorMessage") then
        c3.push (.withMessageOp (jsGet methodCfg "errorMessage"))
      else c3
    let c5 :=
      if isValidatorOptions validatorMethods method methodCfg && truthy (jsGet methodCfg "bail") then
        c4.push .bailOp
      else c4
    { chain := c5, warnings := st.warnings }

/-- The dispatcher's key filter:
`config[method] && !protectedNames.includes(method)`. -/
def keptRule (p : String × JSVal) : Bool :=
  truthy p.2 && !protectedNames.contains p.1

/-- One `forEach` step over a (key, value) pair of the configuration. -/
def ruleStep (chainMethods validatorMethods : List String) (st : CompileState)
    (p : String × JSVal) : CompileState :=
  applyMethod chainMethods validatorMethods st p.1 p.2

/-- `Object.keys(config).filter(...).forEach(...)` over a field's
configuration, starting from the base chain. -/
def dispatchRules (chainMethods validatorMethods : List String) (config : JSObject)
    (chain : Chain) : CompileState :=
  (config.filter keptRule).foldl (ruleStep chainMethods validatorMethods)
    { chain := chain, warnings := [] }

/-- A schema: field name to configuration object, in key iteration order. -/
abbrev Schema := List (String × JSObject)

/-- The value returned by `checkSchema`: the ordered chain collection (the
warnings printed during compilation are also recorded). -/
structure SchemaResult where
  chains : List Chain
  warnings : List String

/-- Compilation of one field of the schema: build the base chain via
`check(field, ensureLocations(config, defaultLocations), config.errorMessage)`
and dispatch every recognized rule key onto it. -/
def compileField (chainMethods validatorMethods : List String) (defaultLocations : List String)
    (fieldName : String) (config : JSObject) : CompileState :=
  dispatchRules chainMethods validatorMethods config
    (check fieldName (ensureLocations config defaultLocations) (getProp config "errorMessage"))

/-- `checkSchema(schema, defaultLocations)`: one chain per schema key, in key
iteration order. -/
def checkSchema (chainMethods validatorMethods : List String) (schema : Schema)
    (defaultLocations : List String) : SchemaResult :=
  { chains := schema.map fun p =>
      (compileField chainMethods validatorMethods defaultLocations p.1 p.2).chain
    warnings := schema.flatMap fun p =>
      (compileField chainMethods validatorMethods defaultLocations p.1 p.2).warnings }

/-- `checkSchema(schema)` with the `defaultLocations` argument omitted: the
source declares the parameter default `defaultLocations: Location[] = validLocations`. -/
def checkSchemaDefault (chainMethods validatorMethods : List String) (schema : Schema) :
    SchemaResult :=
  checkSchema chainMethods validatorMethods schema validLocations

/-- The `run` operation attached to the returned collection:
`async req => await Promise.all(chains.map(chain => chain.run(req)))`.
`Promise.all` resolves with the results in the order of its input array,
independent of completion order; chain execution itself is the collaborator
`runChain`. -/
def SchemaResult.run {Req Res : Type} (r : SchemaResult) (runChain : Chain → Req → Res)
    (req : Req) : List Res :=
  r.chains.map fun c => runChain c req

/-! ### The location algorithm as the spec words it (for the refinement claim) -/

/-- Normalization as the spec words it: "wrap a single `in` value into a
one-element list and drop an absent `in` (yielding an empty list)". -/
def specNormalize : JSVal → List JSVal
  | .undefined => []
  | .varr xs => xs
  | v => [v]

/-- Location resolution as the spec words it: normalize to a list; if the
resulting list is non-empty use it, otherwise use the defaults; then filter
the chosen list against the five valid locations, silently dropping invalid
entries. -/
def ensureLocationsSpec (inVal : JSVal) (defaults : List String) : List String :=
  let normalized := specNormalize inVal
  let chosen := if normalized.isEmpty then defaults.map JSVal.vstr else normalized
  chosen.filterMap keepValid

/-! ### Characterization of the dispatcher -/

/-- The invocations one `forEach` step queues when the method exists on the
chain, read off the five sequential statements of the dispatcher body. -/
def appliedOps (vm : List String) (m : String) (cfg : JSVal) : List ChainOp :=
  (if isValidatorOptions vm m cfg && truthy (jsGet cfg "if") then
    [ChainOp.ifOp (jsGet cfg "if")] else []) ++
  (if isValidatorOptions vm m cfg && truthy (jsGet cfg "negated") then
    [ChainOp.notOp] else []) ++
  [ChainOp.callOp m (resolveArgs cfg)] ++
  (if isValidatorOptions vm m cfg && truthy (jsGet cfg "errorMessage") then
    [ChainOp.withMessageOp (jsGet cfg "errorMessage")] else []) ++
  (if isValidatorOptions vm m cfg && truthy (jsGet cfg "bail") then
    [ChainOp.bailOp] else [])

/-- The invocations one `forEach` step queues. -/
def opsFor (cm vm : List String) (p : String × JSVal) : List ChainOp :=
  if cm.contains p.1 then appliedOps vm p.1 p.2 else []

/-- The warnings one `forEach` step prints. -/
def warnsFor (cm : List String) (p : String × JSVal) : List String :=
  if cm.contains p.1 then [] else [warnMessage p.1]

theorem ruleStep_eq (cm vm : List String) (st : CompileState) (p : String × JSVal) :
    ruleStep cm vm st p =
      { chain := { st.chain with ops := st.chain.ops ++ opsFor cm vm p },
        warnings := st.warnings ++ warnsFor cm p } := by
  obtain ⟨m, cfg⟩ := p
  by_cases hm : cm.contains m = true
  · simp only [ruleStep, applyMethod, opsFor, warnsFor, appliedOps, hm, Bool.not_true,
      Bool.false_eq_true, if_false, List.append_nil]
    split_ifs <;> simp [Chain.push, List.append_assoc]
  · rw [Bool.not_eq_true] at hm
    have hmem : m ∉ cm := by simpa using hm
    simp [ruleStep, applyMethod, opsFor, warnsFor, hm, hmem]

theorem foldl_ruleStep_eq (cm vm : List String) (l : List (String × JSVal)) (st : CompileState) :
    l.foldl (ruleStep cm vm) st =
      { chain := { st.chain with ops := st.chain.ops ++ l.flatMap (opsFor cm vm) },
        warnings := st.warnings ++ l.flatMap (warnsFor cm) } := by
  induction l generalizing st with
  | nil => simp
  | cons p t ih =>
    rw [List.foldl_cons, ruleStep_eq, ih]
    simp [List.append_assoc]

/-- Closed form of the dispatcher: the base chain is extended by the
invocations of each kept rule in configuration order, and the warnings are
those of the unknown kept rules in order. -/
theorem dispatchRules_eq (cm vm : List String) (config : JSObject) (chain : Chain) :
    dispatchRules cm vm config chain =
      { chain := { chain with ops := chain.ops ++ (config.filter keptRule).flatMap (opsFor cm vm) },
        warnings := (config.filter keptRule).flatMap (warnsFor cm) } := by
  unfold dispatchRules
  rw [foldl_ruleStep_eq]
  simp

/-- The only dynamically dispatched invocation a `forEach` step queues is the
step's own method with its resolved arguments. -/
theorem callOp_mem_appliedOps {vm : List String} {m a : String} {cfg : JSVal}
    {args : List JSVal} (h : ChainOp.callOp a args ∈ appliedOps vm m cfg) :
    a = m ∧ args = resolveArgs cfg := by
  unfold appliedOps at h
  split_ifs at h <;> simp_all

/-! ### General facts about `ensureLocations` -/

theorem ensureLocations_eq (config : JSObject) (defaults : List String) :
    ensureLocations config defaults =
      (if (normalizedIn config).isEmpty then defaults.map JSVal.vstr
       else normalizedIn config).filterMap keepValid := by
  simp only [ensureLocations]
  cases h : normalizedIn config <;> simp [h]

theorem norm_eq_specNormalize (config : JSObject)
    (h : getProp config "in" = JSVal.undefined ∨
        (∃ xs, getProp config "in" = JSVal.varr xs) ∨ truthy (getProp config "in") = true) :
    normalizedIn config = specNormalize (getProp config "in") := by
  rcases h with h | ⟨xs, h⟩ | h
  · simp [normalizedIn, specNormalize, h, truthy]
  · simp [normalizedIn, specNormalize, h]
  · unfold normalizedIn specNormalize
    cases hv : getProp config "in" <;> rw [hv] at h <;> simp_all [truthy]

/-! ### Claim C1 -/

/-- C1 counterexample: with `in: ['junk']` (all given locations invalid) and
`defaultLocations = ['body']`, the resolved locations are `[]` and not the
defaults (`['body']`, as the same schema with `in` absent shows): the claimed
fallback to `defaultLocations` does not happen. -/
theorem c1_counterexample :
    ensureLocations [("in", JSVal.varr [JSVal.vstr "junk"])] ["body"] = [] ∧
    ensureLocations [] ["body"] = ["body"] := by
  constructor <;> decide

/-- C1 (amended): every location outside the fixed valid set is excluded from
the chain's resolved locations; but the fallback to the caller-supplied
`defaultLocations` happens exactly when the normalized `in` list is empty
(`in` absent, or a single falsy value) — when `in` holds only invalid
(truthy) locations, the resolved locations are the empty list and there is
no fallback. -/
theorem c1_invalid_excluded_fallback_iff_empty (config : JSObject) (defaults : List String) :
    (∀ s, s ∈ ensureLocations config defaults → validLocations.contains s = true) ∧
    ((normalizedIn config).isEmpty = false →
      ensureLocations config defaults = (normalizedIn config).filterMap keepValid) ∧
    ((normalizedIn config).isEmpty = true →
      ensureLocations config defaults = (defaults.map JSVal.vstr).filterMap keepValid) := by
  refine ⟨?_, ?_, ?_⟩
  · intro s hs
    rw [ensureLocations_eq, List.mem_filterMap] at hs
    obtain ⟨v, -, hv⟩ := hs
    cases v <;> simp only [keepValid] at hv <;> try exact Option.noConfusion hv
    split at hv
    · cases hv; assumption
    · exact Option.noConfusion hv
  · intro h
    rw [ensureLocations_eq, h]
    simp
  · intro h
    rw [ensureLocations_eq, h]
    simp

theorem c1_witness :
    ensureLocations [("in", JSVal.varr [JSVal.vstr "junk", JSVal.vstr "params"])] ["body"] =
      [JSVal.vstr "junk", JSVal.vstr "params"].filterMap keepValid := by
  have h := (c1_invalid_excluded_fallback_iff_empty
      [("in", JSVal.varr [JSVal.vstr "junk", JSVal.vstr "params"])] ["body"]).2.1 (by decide)
  exact h

/-! ### Claim C2 -/

/-- C2: location resolution proceeds exactly as the spec's algorithm (wrap a
single `in`, drop an absent one; use the list if non-empty, else the
defaults; filter against the five valid locations, silently dropping invalid
entries, possibly yielding an empty location set), for every well-typed `in`
value (absent, an array, or a truthy single value); and the omitted
`defaultLocations` argument of `checkSchema` is exactly
`['body','cookies','headers','params','query']`. -/
theorem c2_location_algorithm (config : JSObject) (defaults : List String)
    (cm vm : List String) (schema : Schema)
    (h : getProp config "in" = JSVal.undefined ∨
        (∃ xs, getProp config "in" = JSVal.varr xs) ∨ truthy (getProp config "in") = true) :
    ensureLocations config defaults = ensureLocationsSpec (getProp config "in") defaults ∧
    validLocations = ["body", "cookies", "headers", "params", "query"] ∧
    checkSchemaDefault cm vm schema =
      checkSchema cm vm schema ["body", "cookies", "headers", "params", "query"] ∧
    ensureLocations [("in", JSVal.varr [JSVal.vstr "junk"])] defaults = [] := by
  refine ⟨?_, rfl, rfl, ?_⟩
  · rw [ensureLocations_eq, norm_eq_specNormalize config h]
    rfl
  · rw [ensureLocations_eq]
    have h1 : normalizedIn [("in", JSVal.varr [JSVal.vstr "junk"])] = [JSVal.vstr "junk"] := rfl
    rw [h1]
    simp only [List.isEmpty_cons, Bool.false_eq_true, if_false]
    decide

theorem c2_witness :
    ensureLocations [("in", JSVal.vstr "body")] ["query"] =
      ensureLocationsSpec (JSVal.vstr "body") ["query"] := by
  have h := (c2_location_algorithm [("in", JSVal.vstr "body")] ["query"] [] [] []
      (Or.inr (Or.inr (by decide)))).1
  exact h

/-! ### Argument-resolution helper lemmas -/

theorem resolveArgs_single (o : JSObject) (x : JSVal) (hg : getProp o "options" = x)
    (hx : nullish x = false) (hxa : ∀ xs, x ≠ JSVal.varr xs) :
    resolveArgs (JSVal.vobj o) = [x] := by
  unfold resolveArgs
  simp only [isTrueLit, jsGet, hg, hx, Bool.false_eq_true, if_false]

/-! ### Claim C3 -/

/-- C3: for a rule configuration object with all four modifier keys truthy,
the `if`, `negated`, per-rule `errorMessage` and `bail` modifiers are applied
precisely when the rule name is a member of the chain's validator method set
(`ValidatorsImpl.prototype`); for a rule name outside that set (in
particular a sanitizer-class rule), none of them is applied even though the
keys are present in the configuration object. -/
theorem c3_modifiers_iff_validator (cm vm : List String) (st : CompileState)
    (m : String) (o : JSObject) (hm : cm.contains m = true)
    (hif : truthy (getProp o "if") = true) (hneg : truthy (getProp o "negated") = true)
    (hmsg : truthy (getProp o "errorMessage") = true)
    (hbail : truthy (getProp o "bail") = true) :
    (applyMethod cm vm st m (JSVal.vobj o)).chain.ops =
      st.chain.ops ++
        (if vm.contains m then
          [ChainOp.ifOp (getProp o "if"), ChainOp.notOp,
            ChainOp.callOp m (resolveArgs (JSVal.vobj o)),
            ChainOp.withMessageOp (getProp o "errorMessage"), ChainOp.bailOp]
        else [ChainOp.callOp m (resolveArgs (JSVal.vobj o))]) := by
  have h := ruleStep_eq cm vm st (m, JSVal.vobj o)
  simp only [ruleStep] at h
  rw [h]
  simp only [opsFor, hm, if_true]
  by_cases hv : vm.contains m = true
  · have hvm : m ∈ vm := by simpa using hv
    simp [appliedOps, isValidatorOptions, isTrueLit, jsGet, hv, hvm, hif, hneg, hmsg, hbail]
  · rw [Bool.not_eq_true] at hv
    have hvm : m ∉ vm := by simpa using hv
    simp [appliedOps, isValidatorOptions, isTrueLit, jsGet, hv, hvm, hif, hneg, hmsg, hbail]

theorem c3_witness :
    (applyMethod ["isInt"] ["isInt"]
        { chain := check "age" ["body"] JSVal.undefined, warnings := [] } "isInt"
        (JSVal.vobj [("if", JSVal.vfn 0), ("negated", JSVal.vbool true),
          ("errorMessage", JSVal.vstr "bad"), ("bail", JSVal.vbool true)])).chain.ops =
      (check "age" ["body"] JSVal.undefined).ops ++
        (if (["isInt"] : List String).contains "isInt" then
          [ChainOp.ifOp (getProp [("if", JSVal.vfn 0), ("negated", JSVal.vbool true),
              ("errorMessage", JSVal.vstr "bad"), ("bail", JSVal.vbool true)] "if"),
            ChainOp.notOp,
            ChainOp.callOp "isInt" (resolveArgs (JSVal.vobj [("if", JSVal.vfn 0),
              ("negated", JSVal.vbool true), ("errorMessage", JSVal.vstr "bad"),
              ("bail", JSVal.vbool true)])),
            ChainOp.withMessageOp (getProp [("if", JSVal.vfn 0), ("negated", JSVal.vbool true),
              ("errorMessage", JSVal.vstr "bad"), ("bail", JSVal.vbool true)] "errorMessage"),
            ChainOp.bailOp]
        else [ChainOp.callOp "isInt" (resolveArgs (JSVal.vobj [("if", JSVal.vfn 0),
          ("negated", JSVal.vbool true), ("errorMessage", JSVal.vstr "bad"),
          ("bail", JSVal.vbool true)]))]) :=
  c3_modifiers_iff_validator ["isInt"] ["isInt"]
    { chain := check "age" ["body"] JSVal.undefined, warnings := [] } "isInt"
    [("if", JSVal.vfn 0), ("negated", JSVal.vbool true),
      ("errorMessage", JSVal.vstr "bad"), ("bail", JSVal.vbool true)]
    (by decide) (by decide) (by decide) (by decide) (by decide)

/-! ### Claim C4 -/

/-- C4: for a validator-class rule configuration object, the chain operations
are applied in the fixed order: the `if` gate, then `not()`, then the rule
method itself with its resolved arguments, then `withMessage`, then
`bail()` — each modifier appearing exactly when its configured value is
truthy. -/
theorem c4_modifier_order (cm vm : List String) (st : CompileState) (m : String)
    (o : JSObject) (hm : cm.contains m = true) (hv : vm.contains m = true) :
    (applyMethod cm vm st m (JSVal.vobj o)).chain.ops =
      st.chain.ops ++
      ((if truthy (getProp o "if") then [ChainOp.ifOp (getProp o "if")] else []) ++
        (if truthy (getProp o "negated") then [ChainOp.notOp] else []) ++
        [ChainOp.callOp m (resolveArgs (JSVal.vobj o))] ++
        (if truthy (getProp o "errorMessage") then
          [ChainOp.withMessageOp (getProp o "errorMessage")] else []) ++
        (if truthy (getProp o "bail") then [ChainOp.bailOp] else [])) := by
  have h := ruleStep_eq cm vm st (m, JSVal.vobj o)
  simp only [ruleStep] at h
  rw [h]
  have hcm : m ∈ cm := by simpa using hm
  have hvm : m ∈ vm := by simpa using hv
  simp [opsFor, appliedOps, isValidatorOptions, isTrueLit, jsGet, hm, hv, hcm, hvm]

theorem c4_witness :
    (applyMethod ["isEmail"] ["isEmail"]
        { chain := check "email" ["body"] JSVal.undefined, warnings := [] } "isEmail"
        (JSVal.vobj [("errorMessage", JSVal.vstr "bad email"),
          ("bail", JSVal.vbool true)])).chain.ops =
      (check "email" ["body"] JSVal.undefined).ops ++
        ((if truthy (getProp [("errorMessage", JSVal.vstr "bad email"),
            ("bail", JSVal.vbool true)] "if") then
          [ChainOp.ifOp (getProp [("errorMessage", JSVal.vstr "bad email"),
            ("bail", JSVal.vbool true)] "if")] else []) ++
        (if truthy (getProp [("errorMessage", JSVal.vstr "bad email"),
            ("bail", JSVal.vbool true)] "negated") then [ChainOp.notOp] else []) ++
        [ChainOp.callOp "isEmail" (resolveArgs (JSVal.vobj
          [("errorMessage", JSVal.vstr "bad email"), ("bail", JSVal.vbool true)]))] ++
        (if truthy (getProp [("errorMessage", JSVal.vstr "bad email"),
            ("bail", JSVal.vbool true)] "errorMessage") then
          [ChainOp.withMessageOp (getProp [("errorMessage", JSVal.vstr "bad email"),
            ("bail", JSVal.vbool true)] "errorMessage")] else []) ++
        (if truthy (getProp [("errorMessage", JSVal.vstr "bad email"),
            ("bail", JSVal.vbool true)] "bail") then [ChainOp.bailOp] else [])) :=
  c4_modifier_order ["isEmail"] ["isEmail"]
    { chain := check "email" ["body"] JSVal.undefined, warnings := [] } "isEmail"
    [("errorMessage", JSVal.vstr "bad email"), ("bail", JSVal.vbool true)]
    (by decide) (by decide)

/-! ### Claim C5 -/

/-- C5: argument resolution of a dispatched rule: the literal `true` yields a
zero-argument invocation with no modifiers (and no warning); an `options`
value that is a single non-list (non-nullish) value is passed as exactly one
argument; an `options` value that is already a list is spread as the
positional arguments; an absent `options` yields zero arguments. -/
theorem c5_argument_resolution (cm vm : List String) (st : CompileState) (m : String)
    (o : JSObject) (hm : cm.contains m = true) :
    ((applyMethod cm vm st m (JSVal.vbool true)).chain.ops =
        st.chain.ops ++ [ChainOp.callOp m []] ∧
      (applyMethod cm vm st m (JSVal.vbool true)).warnings = st.warnings) ∧
    (∀ v, getProp o "options" = v → nullish v = false → (∀ xs, v ≠ JSVal.varr xs) →
      resolveArgs (JSVal.vobj o) = [v]) ∧
    (∀ xs, getProp o "options" = JSVal.varr xs → resolveArgs (JSVal.vobj o) = xs) ∧
    (getProp o "options" = JSVal.undefined → resolveArgs (JSVal.vobj o) = []) := by
  have h := ruleStep_eq cm vm st (m, JSVal.vbool true)
  simp only [ruleStep] at h
  have hcm : m ∈ cm := by simpa using hm
  refine ⟨⟨?_, ?_⟩, ?_, ?_, ?_⟩
  · rw [h]
    simp [opsFor, appliedOps, isValidatorOptions, isTrueLit, resolveArgs, hm, hcm, jsGet,
      nullish]
  · rw [h]
    simp [warnsFor, hm, hcm]
  · intro v hv hnull hna
    exact resolveArgs_single o v hv hnull hna
  · intro xs hxs
    unfold resolveArgs
    simp [isTrueLit, jsGet, hxs, nullish]
  · intro habs
    unfold resolveArgs
    simp [isTrueLit, jsGet, habs, nullish]

theorem c5_witness :
    (applyMethod ["trim"] [] { chain := check "name" ["body"] JSVal.undefined, warnings := [] }
        "trim" (JSVal.vbool true)).chain.ops =
      (check "name" ["body"] JSVal.undefined).ops ++ [ChainOp.callOp "trim" []] :=
  (c5_argument_resolution ["trim"] []
    { chain := check "name" ["body"] JSVal.undefined, warnings := [] } "trim"
    [("options", JSVal.vnum 5)] (by decide)).1.1

/-! ### Claim C9 -/

/-- C9: each modifier of a validator-class rule is applied only when its
configured value is truthy, not merely present: a falsy `if`, `negated`,
`errorMessage` or `bail` value causes no corresponding chain operation to be
queued by this rule. -/
theorem c9_falsy_modifiers_not_applied (cm vm : List String) (st : CompileState)
    (m : String) (o : JSObject) (hm : cm.contains m = true) :
    (truthy (getProp o "if") = false → ∀ c, ChainOp.ifOp c ∉
      ((applyMethod cm vm st m (JSVal.vobj o)).chain.ops.drop st.chain.ops.length)) ∧
    (truthy (getProp o "negated") = false → ChainOp.notOp ∉
      ((applyMethod cm vm st m (JSVal.vobj o)).chain.ops.drop st.chain.ops.length)) ∧
    (truthy (getProp o "errorMessage") = false → ∀ msg, ChainOp.withMessageOp msg ∉
      ((applyMethod cm vm st m (JSVal.vobj o)).chain.ops.drop st.chain.ops.length)) ∧
    (truthy (getProp o "bail") = false → ChainOp.bailOp ∉
      ((applyMethod cm vm st m (JSVal.vobj o)).chain.ops.drop st.chain.ops.length)) := by
  have h := ruleStep_eq cm vm st (m, JSVal.vobj o)
  simp only [ruleStep] at h
  have hcm : m ∈ cm := by simpa using hm
  have hd : (applyMethod cm vm st m (JSVal.vobj o)).chain.ops.drop st.chain.ops.length =
      appliedOps vm m (JSVal.vobj o) := by
    rw [h]
    simp [opsFor, hm, hcm, List.drop_left]
  rw [hd]
  refine ⟨?_, ?_, ?_, ?_⟩
  · intro hfalse c
    simp only [appliedOps, jsGet, hfalse, Bool.and_false, Bool.false_eq_true, if_false]
    split_ifs <;> simp
  · intro hfalse
    simp only [appliedOps, jsGet, hfalse, Bool.and_false, Bool.false_eq_true, if_false]
    split_ifs <;> simp
  · intro hfalse msg
    simp only [appliedOps, jsGet, hfalse, Bool.and_false, Bool.false_eq_true, if_false]
    split_ifs <;> simp
  · intro hfalse
    simp only [appliedOps, jsGet, hfalse, Bool.and_false, Bool.false_eq_true, if_false]
    split_ifs <;> simp

theorem c9_witness :
    ChainOp.notOp ∉
      ((applyMethod ["isInt"] ["isInt"]
        { chain := check "age" ["body"] JSVal.undefined, warnings := [] } "isInt"
        (JSVal.vobj [("negated", JSVal.vbool false), ("bail", JSVal.vbool true)])).chain.ops.drop
        (check "age" ["body"] JSVal.undefined).ops.length) :=
  (c9_falsy_modifiers_not_applied ["isInt"] ["isInt"]
    { chain := check "age" ["body"] JSVal.undefined, warnings := [] } "isInt"
    [("negated", JSVal.vbool false), ("bail", JSVal.vbool true)] (by decide)).2.1 (by decide)

/-! ### Claim C6 -/

/-- C6: a rule key that is not a callable method of the chain is skipped
non-fatally: the compiled chain is identical to the one compiled without
that rule (all other rules still apply), the warning text naming the rule is
printed, and no invocation of that rule is ever queued on the chain. -/
theorem c6_unknown_rule_skipped (cm vm : List String) (pre post : JSObject) (chain : Chain)
    (m : String) (v : JSVal) (hm : cm.contains m = false) :
    ((dispatchRules cm vm (pre ++ (m, v) :: post) chain).chain =
      (dispatchRules cm vm (pre ++ post) chain).chain) ∧
    (truthy v = true → protectedNames.contains m = false →
      warnMessage m ∈ (dispatchRules cm vm (pre ++ (m, v) :: post) chain).warnings) ∧
    (∀ args,
      ChainOp.callOp m args ∈ (dispatchRules cm vm (pre ++ (m, v) :: post) chain).chain.ops →
      ChainOp.callOp m args ∈ chain.ops) := by
  have hmem : m ∉ cm := by simpa using hm
  refine ⟨?_, ?_, ?_⟩
  · rw [dispatchRules_eq, dispatchRules_eq]
    have hops : ((pre ++ (m, v) :: post).filter keptRule).flatMap (opsFor cm vm) =
        ((pre ++ post).filter keptRule).flatMap (opsFor cm vm) := by
      rw [List.filter_append, List.filter_append, List.filter_cons]
      by_cases hk : keptRule (m, v) = true
      · simp [hk, opsFor, hm, hmem]
      · simp [hk]
    rw [hops]
  · intro hv hp
    rw [dispatchRules_eq]
    have hk : keptRule (m, v) = true := by
      have hpmem : m ∉ protectedNames := by simpa using hp
      simp [keptRule, hv, hp, hpmem]
    simp [List.filter_append, List.filter_cons, hk, warnsFor, hm, hmem]
  · intro args hmem2
    rw [dispatchRules_eq] at hmem2
    simp only [List.mem_append] at hmem2
    rcases hmem2 with h1 | h1
    · exact h1
    · rw [List.mem_flatMap] at h1
      obtain ⟨p, -, hp2⟩ := h1
      unfold opsFor at hp2
      split at hp2
      · obtain ⟨heq, -⟩ := callOp_mem_appliedOps hp2
        subst heq
        rename_i hc
        exact absurd hc (by simpa using hm)
      · exact absurd hp2 (List.not_mem_nil _)

theorem c6_witness :
    warnMessage "nonsense" ∈
      (dispatchRules ["isInt"] ["isInt"]
        [("isInt", JSVal.vbool true), ("nonsense", JSVal.vbool true)]
        (check "age" ["body"] JSVal.undefined)).warnings :=
  (c6_unknown_rule_skipped ["isInt"] ["isInt"] [("isInt", JSVal.vbool true)] []
    (check "age" ["body"] JSVal.undefined) "nonsense" (JSVal.vbool true)
    (by decide)).2.1 (by decide) (by decide)

/-! ### Claim C7 -/

theorem compileField_fieldName (cm vm defaults : List String) (f : String)
    (config : JSObject) : (compileField cm vm defaults f config).chain.fieldName = f := by
  unfold compileField
  rw [dispatchRules_eq]
  rfl

theorem map_chain_fieldName (cm vm defaults : List String) (schema : Schema) :
    ((schema.map fun p => (compileField cm vm defaults p.1 p.2).chain).map
      Chain.fieldName) = schema.map Prod.fst := by
  induction schema with
  | nil => rfl
  | cons p t ih => simp only [List.map_cons, compileField_fieldName, ih]

/-- C7: `checkSchema` yields one chain per schema key, in the schema's key
iteration order, and the `run` operation attached to the collection yields
one result per field, in the same order as the chain collection (the i-th
result is the i-th chain's own run against the same request). -/
theorem c7_run_order {Req Res : Type} (cm vm defaults : List String) (schema : Schema)
    (runChain : Chain → Req → Res) (req : Req) :
    (checkSchema cm vm schema defaults).chains.map Chain.fieldName = schema.map Prod.fst ∧
    (checkSchema cm vm schema defaults).chains.length = schema.length ∧
    ((checkSchema cm vm schema defaults).run runChain req).length =
      (checkSchema cm vm schema defaults).chains.length ∧
    (∀ i : Nat, ((checkSchema cm vm schema defaults).run runChain req)[i]? =
      ((checkSchema cm vm schema defaults).chains[i]?).map fun c => runChain c req) := by
  refine ⟨?_, ?_, ?_, ?_⟩
  · exact map_chain_fieldName cm vm defaults schema
  · simp [checkSchema]
  · simp [SchemaResult.run]
  · intro i
    simp [SchemaResult.run, List.getElem?_map]

/-! ### Claim C8 -/

/-- C8: the reserved keys `errorMessage` and `in` are never dispatched as
rule names, and a key whose configured value is falsy is skipped by the rule
dispatcher: removing such an entry from the configuration leaves the
compilation result (chain and warnings) unchanged. -/
theorem c8_reserved_and_falsy_skipped (cm vm : List String) (pre post : JSObject)
    (chain : Chain) (m : String) (v : JSVal)
    (h : protectedNames.contains m = true ∨ truthy v = false) :
    dispatchRules cm vm (pre ++ (m, v) :: post) chain =
      dispatchRules cm vm (pre ++ post) chain := by
  have hk : keptRule (m, v) = false := by
    rcases h with h | h
    · have hpm : m ∈ protectedNames := by simpa using h
      simp [keptRule, h, hpm]
    · simp [keptRule, h]
  unfold dispatchRules
  rw [List.filter_append, List.filter_cons, hk]
  simp [List.filter_append]

theorem c8_witness :
    dispatchRules ["isInt"] ["isInt"]
        [("isInt", JSVal.vbool true), ("in", JSVal.vstr "body")]
        (check "age" ["body"] JSVal.undefined) =
      dispatchRules ["isInt"] ["isInt"] [("isInt", JSVal.vbool true)]
        (check "age" ["body"] JSVal.undefined) :=
  c8_reserved_and_falsy_skipped ["isInt"] ["isInt"] [("isInt", JSVal.vbool true)] []
    (check "age" ["body"] JSVal.undefined) "in" (JSVal.vstr "body") (Or.inl (by decide))

/-! ### Claim C10 -/

/-- C10: `optional` is not a reserved key: an `optional` entry passes the
dispatcher's filter and goes through the same dynamic-dispatch path as any
rule, invoking the chain method named `optional` with the same argument
resolution — the literal `true` yields a zero-argument call, and an object
whose `options` is a single non-list value yields that value as the one
argument. -/
theorem c10_optional_dispatched (cm vm : List String) (chain : Chain) (x : JSVal)
    (hm : cm.contains "optional" = true)
    (hx : nullish x = false) (hxa : ∀ xs, x ≠ JSVal.varr xs) :
    protectedNames.contains "optional" = false ∧
    (dispatchRules cm vm [("optional", JSVal.vbool true)] chain).chain.ops =
      chain.ops ++ [ChainOp.callOp "optional" []] ∧
    (dispatchRules cm vm [("optional", JSVal.vobj [("options", x)])] chain).chain.ops =
      chain.ops ++ [ChainOp.callOp "optional" [x]] := by
  have hcm : "optional" ∈ cm := by simpa using hm
  refine ⟨by decide, ?_, ?_⟩
  · rw [dispatchRules_eq]
    have hfil : ([("optional", JSVal.vbool true)].filter keptRule) =
        [("optional", JSVal.vbool true)] := rfl
    rw [hfil]
    simp [opsFor, appliedOps, isValidatorOptions, isTrueLit, resolveArgs, hm, hcm, jsGet,
      nullish]
  · rw [dispatchRules_eq]
    have hfil : ([("optional", JSVal.vobj [("options", x)])].filter keptRule) =
        [("optional", JSVal.vobj [("options", x)])] := rfl
    rw [hfil]
    have hr := resolveArgs_single [("options", x)] x rfl hx hxa
    have h1 : jsGet (JSVal.vobj [("options", x)]) "if" = JSVal.undefined := rfl
    have h2 : jsGet (JSVal.vobj [("options", x)]) "negated" = JSVal.undefined := rfl
    have h3 : jsGet (JSVal.vobj [("options", x)]) "errorMessage" = JSVal.undefined := rfl
    have h4 : jsGet (JSVal.vobj [("options", x)]) "bail" = JSVal.undefined := rfl
    simp [opsFor, appliedOps, hm, hcm, hr, h1, h2, h3, h4, truthy]

theorem c10_witness :
    (dispatchRules ["optional"] [] [("optional", JSVal.vobj [("options", JSVal.vnum 3)])]
        (check "age" [] JSVal.undefined)).chain.ops =
      [ChainOp.callOp "optional" [JSVal.vnum 3]] :=
  (c10_optional_dispatched ["optional"] [] (check "age" [] JSVal.undefined)
    (JSVal.vnum 3) (by decide) (by decide) (fun _ h => JSVal.noConfusion h)).2.2

end ExpressValidator
